import Mathlib

/-!
Verification development for the piano-trainer repository.

The definitions below are a shallow embedding of the TypeScript sources:

* `src/utils/audioHelpers.ts` — frequency classifier (`getNoteFromFrequency`),
  random target generation (`generateRandomNote`), PCM decoding
  (`decodeAudioData`).
* `src/hooks/usePitchDetector.ts` — the stability gate (`handlePitch`,
  `stopListening`).
* `src/App.tsx` — the game session controller (match effect, story queue
  construction, background audio fill with session-token cancellation).
* `src/utils/genai.ts` — story text generation with fallbacks
  (`generateStorySession`).

JavaScript numbers are modelled as real numbers (`ℝ`) where the source uses
`Math.log2`, and as rationals/integers where the arithmetic is exact.
`Math.round x` is `⌊x + 1/2⌋`; the JS `%` operator on integers is `Int.tmod`
(remainder with the sign of the dividend); `Math.floor` of a quotient of
integers is `Int.fdiv`.  External services (the pitch model, the text and
speech generators) and the scheduler are modelled by explicit parameters:
lists of samples, of random draws, of service responses, of observed session
tokens.
-/

namespace PianoTrainer

/-! ### Frequency classifier (`src/utils/audioHelpers.ts`, lines 27–68) -/

/-- `NOTE_NAMES` from `audioHelpers.ts`. -/
def NOTE_NAMES : List String :=
  ["C", "C#", "D", "D#", "E", "F"] ++ ["F#", "G", "G#", "A", "A#", "B"]

/-- `NATURAL_NOTES` from `audioHelpers.ts`. -/
def NATURAL_NOTES : List String := ["C", "D", "E", "F", "G", "A", "B"]

/-- Indices of sharp notes: C#(1), D#(3), F#(6), G#(8), A#(10)
(`sharpIndices` in `getNoteFromFrequency`). -/
def sharpIndices : List ℤ := [1, 3, 6, 8, 10]

/-- `NoteData` from `src/types.ts`.  `frequency` and `cents` are JS numbers,
modelled as reals. -/
structure NoteData where
  note : String
  octave : ℤ
  frequency : ℝ
  cents : ℝ

/-- JavaScript `Math.round`: round half away from zero for positive halves,
i.e. `⌊x + 0.5⌋`.  Polymorphic so the same definition can be evaluated on `ℚ`
and reasoned about on `ℝ`. -/
def jsRound {α : Type} [LinearOrderedField α] [FloorRing α] (x : α) : ℤ :=
  ⌊x + 1 / 2⌋

/-- JavaScript array indexing `NOTE_NAMES[finalIndex]` for an integer MIDI
number: the index is `midiNote % 12` with JS remainder semantics
(`Int.tmod`); a negative index reads `undefined` in JS. -/
def noteName (midiNote : ℤ) : String :=
  if 0 ≤ Int.tmod midiNote 12 then
    NOTE_NAMES.getD (Int.tmod midiNote 12).toNat "undefined"
  else "undefined"

/-- The SNAP-TO-NATURAL logic of `getNoteFromFrequency`: round the raw MIDI
pitch to the nearest semitone; if that semitone is a black key, snap to the
white key below when the raw pitch is strictly closer to it, otherwise to the
white key above. -/
def snapMidi {α : Type} [LinearOrderedField α] [FloorRing α] (rawMidi : α) : ℤ :=
  if Int.tmod (jsRound rawMidi) 12 ∈ sharpIndices then
    if |rawMidi - ((jsRound rawMidi : α) - 1)| < |rawMidi - ((jsRound rawMidi : α) + 1)|
    then jsRound rawMidi - 1
    else jsRound rawMidi + 1
  else jsRound rawMidi

/-- The exact MIDI number computed by `getNoteFromFrequency`:
`69 + 12 * Math.log2(frequency / 440)`. -/
noncomputable def rawMidiOf (frequency : ℝ) : ℝ :=
  69 + 12 * Real.logb 2 (frequency / 440)

/-- `getNoteFromFrequency` from `audioHelpers.ts` (snap-to-natural version):
the guard `!frequency || frequency < 27.5 || frequency > 4186` returns
`null`; otherwise the rounded-and-snapped MIDI number is converted back to a
note letter and octave (`octave = Math.floor(midiNote / 12) - 1`). -/
noncomputable def getNoteFromFrequency (frequency : ℝ) : Option NoteData :=
  if frequency = 0 ∨ frequency < 27.5 ∨ 4186 < frequency then none
  else
    some { note := noteName (snapMidi (rawMidiOf frequency))
           octave := Int.fdiv (snapMidi (rawMidiOf frequency)) 12 - 1
           frequency := frequency
           cents := 0 }

/-! ### Stability gate (`src/hooks/usePitchDetector.ts`) -/

/-- `STABILITY_THRESHOLD_MS = 100`: time (ms) a note must be held to be
registered. -/
def STABILITY_THRESHOLD_MS : ℕ := 100

/-- The refs holding the debouncing state of `usePitchDetector`:
`candidateNoteRef`, `candidateStartTimeRef`, `currentStableNoteRef`. -/
structure GateState where
  candidateNote : Option String
  candidateStart : ℕ
  currentStable : Option String
deriving DecidableEq

/-- Initial ref values of `usePitchDetector`: `candidateNoteRef = null`,
`candidateStartTimeRef = 0`, `currentStableNoteRef = null`. -/
def initGate : GateState := ⟨none, 0, none⟩

/-- One incoming sample for `handlePitch`, after classification:
`silence` is a falsy/absent frequency; `outOfRange` is a positive frequency
for which `getNoteFromFrequency` returned `null`; `note lbl` carries
`formatNoteDisplay(detected)`, which is just the note letter. -/
inductive Sample where
  | silence
  | outOfRange
  | note (lbl : String)
deriving DecidableEq

/-- The body of `handlePitch` (lines 86–118 of `usePitchDetector.ts`) as a
transition on `GateState`; `now` is `Date.now()` in ms.  The second component
is the committed note event (`setCurrentNote`/`updateHistory` firing), if
any. -/
def handlePitch (st : GateState) (now : ℕ) : Sample → GateState × Option String
  | Sample.silence => ({ st with candidateNote := none }, none)
  | Sample.outOfRange => (st, none)
  | Sample.note lbl =>
    if st.candidateNote = some lbl then
      if STABILITY_THRESHOLD_MS < now - st.candidateStart then
        if st.currentStable ≠ some lbl then
          ({ st with currentStable := some lbl }, some lbl)
        else (st, none)
      else (st, none)
    else ({ st with candidateNote := some lbl, candidateStart := now }, none)

/-- The gate-state reset performed by `stopListening`:
`candidateNoteRef.current = null; currentStableNoteRef.current = null`. -/
def stopGate (st : GateState) : GateState :=
  { st with candidateNote := none, currentStable := none }

/-- Run the gate over a list of timestamped samples, collecting the committed
note events in order. -/
def runGate (st : GateState) : List (ℕ × Sample) → GateState × List String
  | [] => (st, [])
  | (t, s) :: rest =>
    let step := handlePitch st t s
    let tail := runGate step.1 rest
    (tail.1, step.2.toList ++ tail.2)

/-! ### Game session controller (`src/App.tsx`, match effect) -/

/-- `TargetNote` from `src/types.ts`. -/
structure TargetNote where
  note : String
  octave : ℤ
deriving DecidableEq

/-- The controller state touched by the match effect of `App`:
`isListening`, `targetNote`, `score`, `isMatched`, `processingMatchRef`,
`perfectAttempt`, `showReward`, and the number of advance timers currently
scheduled via `matchTimerRef` (`pendingAdvances`). -/
structure GameState where
  isListening : Bool
  targetNote : Option TargetNote
  score : ℕ
  isMatched : Bool
  processingMatch : Bool
  perfectAttempt : Bool
  showReward : Bool
  pendingAdvances : ℕ
deriving DecidableEq

/-- The match `useEffect` of `App` (lines 415–447), run when a newly
committed `NoteData` with letter `n` arrives (`currentNote` is non-null by
assumption, since a commit just produced it).  Guard:
`if (!isListening || !targetNote || !currentNote || processingMatchRef.current) return`.
On a letter match it sets the latch, marks matched, increments the score,
fires the reward if the attempt was perfect, and schedules exactly one
advance timer.  On a mismatch it only taints `perfectAttempt`. -/
def onCommit (g : GameState) (n : String) : GameState :=
  if g.isListening = false ∨ g.targetNote = none ∨ g.processingMatch = true then g
  else
    match g.targetNote with
    | none => g
    | some t =>
      if n = t.note then
        { g with processingMatch := true
                 isMatched := true
                 score := g.score + 1
                 showReward := if g.perfectAttempt then true else g.showReward
                 pendingAdvances := g.pendingAdvances + 1 }
      else
        if g.isMatched = false ∧ g.perfectAttempt = true then
          { g with perfectAttempt := false }
        else g

/-! ### Story queue manager (`src/App.tsx` and `src/utils/genai.ts`) -/

/-- `StoryItem` from `App.tsx`: `audioBase64` is `string | null`. -/
structure StoryItem where
  note : TargetNote
  text : String
  audioBase64 : Option String
deriving DecidableEq

/-- The character names of `STICKER_MAP` in `audioHelpers.ts`. -/
def STICKER_CHARACTERS : List (String × String) :=
  [("C", "Creepy"), ("D", "Dino"), ("E", "Edith"), ("F", "Fred"),
   ("G", "Grumpy"), ("A", "Amey"), ("B", "Becky")]

/-- `STICKER_MAP[note]?.characterName || 'your friend'`: the optional-chain
yields `undefined` for an unknown note, and `||` replaces any falsy (empty)
name. -/
def characterNameD (note : String) : String :=
  match STICKER_CHARACTERS.lookup note with
  | some c => if c = "" then "your friend" else c
  | none => "your friend"

/-- The templated fallback sentence `` `Play ${note}!` `` used by
`generateStorySession` and by the queue construction in `App.tsx`. -/
def playFallback (note : String) : String := "Play " ++ note ++ "!"

/-- The no-API-key fallback sentence of `generateStorySession`. -/
def helpFallback (note : String) : String :=
  "Help " ++ characterNameD note ++ " play the note " ++ note ++ "!"

/-- Outcome of the external text service call in `generateStorySession`:
the request (or `JSON.parse`) threw, the parsed JSON was not an array, or it
was an array of strings. -/
inductive TextServiceResult where
  | failure
  | nonArray
  | array (xs : List String)
deriving DecidableEq

/-- `generateStorySession` from `src/utils/genai.ts` (lines 13–90), with the
API-key presence and the service outcome made explicit.  Without a key it
maps the `Help …` fallback; on a thrown error it maps `` `Play ${note}!` ``;
if the parsed JSON is an array of exactly matching length it is returned
as-is; otherwise each slot takes `json[i]` when that is a truthy (non-empty,
in-bounds) string and the `Play` fallback otherwise.  A non-array JSON makes
every `json[i]` falsy. -/
def generateStorySession (noteSequence : List String) (hasKey : Bool)
    (resp : TextServiceResult) : List String :=
  if hasKey = false then noteSequence.map helpFallback
  else
    match resp with
    | TextServiceResult.failure => noteSequence.map playFallback
    | TextServiceResult.nonArray => noteSequence.map (fun note => playFallback note)
    | TextServiceResult.array xs =>
      if xs.length = noteSequence.length then xs
      else
        noteSequence.mapIdx fun i note =>
          if xs.getD i "" = "" then playFallback note else xs.getD i ""

/-- The queue construction of `startStorySession` (step 4, `App.tsx` lines
277–281): `newNotes.map((note, i) => ({ note, text: texts[i] || fallback,
audioBase64: i < initialAudios.length ? initialAudios[i] : null }))`.
`texts[i]` is falsy when out of bounds or empty. -/
def buildQueue (newNotes : List TargetNote) (texts : List String)
    (initialAudios : List (Option String)) : List StoryItem :=
  newNotes.mapIdx fun i note =>
    { note := note
      text := if texts.getD i "" = "" then playFallback note.note else texts.getD i ""
      audioBase64 := if i < initialAudios.length then initialAudios.getD i none else none }

/-- `SESSION_LENGTH = 50` in `startStorySession`. -/
def SESSION_LENGTH : ℕ := 50

/-- One batch write of `loadBackgroundAudio` (lines 219–228):
`batchAudio.forEach((audio, idx) => { const g = i + idx;
if (newQueue[g]) newQueue[g].audioBase64 = audio })` on a copy of the queue.
Slots outside `[i, i + batch.length)` are untouched. -/
def applyBatch (q : List StoryItem) (i : ℕ) (batch : List (Option String)) :
    List StoryItem :=
  q.mapIdx fun j it =>
    if i ≤ j ∧ j < i + batch.length then
      { it with audioBase64 := batch.getD (j - i) none }
    else it

/-- The speech results for one batch of `loadBackgroundAudio`:
`generateSpeechBatch(fullTexts.slice(i, min(i+batchSize, n)))`, with the
external speech service abstracted as `audioFor : ℕ → Option String` giving
the (possibly `null`) result for each global index. -/
def mkBatch (audioFor : ℕ → Option String) (i batchSize n : ℕ) :
    List (Option String) :=
  (List.range (min (i + batchSize) n - i)).map fun idx => audioFor (i + idx)

/-- The write loop of `loadBackgroundAudio`
(`for (let i = startIndex; i < fullTexts.length; i += batchSize)`), in the
run where the session stays current (no cancellation): each batch is
generated and written in place.  `n` is `fullTexts.length`. -/
def fillLoop (audioFor : ℕ → Option String) (n batchSize : ℕ)
    (hbs : 0 < batchSize) (q : List StoryItem) (i : ℕ) : List StoryItem :=
  if _h : i < n then
    fillLoop audioFor n batchSize hbs (applyBatch q i (mkBatch audioFor i batchSize n))
      (i + batchSize)
  else q
termination_by n - i
decreasing_by omega

/-- The cancellation skeleton of `loadBackgroundAudio`: each loop iteration
reads the controller's current session token once at the top of the loop
(before generating) and once after the `await` (before writing to state).
`obs` records, per batch, that pair of observed tokens; `captured` is the
`sessionId` argument captured at spawn time.  The result lists the indices
of the batches whose state write actually executes; the loop `return`s on
the first mismatch. -/
def runBackground (captured : String) : List (String × String) → List ℕ
  | [] => []
  | (pre, post) :: rest =>
    if pre ≠ captured then []
    else if post ≠ captured then []
    else 0 :: (runBackground captured rest).map (fun b => b + 1)

/-! ### Random natural-note generation (`generateRandomNote`) -/

/-- The do/while loop of `generateRandomNote`: each draw is
`Math.floor(Math.random() * NATURAL_NOTES.length)`, an index in `Fin 7`.
The loop repeats while
`excludeNote && note === excludeNote && NATURAL_NOTES.length > 1`.
Returns the accepted note together with the unconsumed draws, or `none`
if the (finite) draw supply runs out. -/
def generateRandomNoteLoop : List (Fin 7) → Option String →
    Option (String × List (Fin 7))
  | [], _ => none
  | d :: ds, ex =>
    let note := NATURAL_NOTES.getD (d : ℕ) ""
    if ex = some note ∧ 1 < NATURAL_NOTES.length then generateRandomNoteLoop ds ex
    else some (note, ds)

/-- The note-generation loop of `startStorySession` (lines 254–260): `n`
targets, each generated with `excludeNote` set to the previous target's note
(`undefined` for the first).  Only the note letters are tracked.  Stops
early if the draw supply runs out. -/
def genSessionNotes : List (Fin 7) → ℕ → Option String → List String
  | _, 0, _ => []
  | draws, Nat.succ n, prev =>
    match generateRandomNoteLoop draws prev with
    | none => []
    | some (note, rest) => note :: genSessionNotes rest n (some note)

/-! ### PCM decoding (`decodeAudioData`, `audioHelpers.ts` lines 103–120) -/

/-- Reinterpret two consecutive bytes as a little-endian signed 16-bit
integer, as `new Int16Array(data.buffer)` does. -/
def toInt16 (lo hi : ℕ) : ℤ :=
  let u := lo + 256 * hi
  if u < 32768 then (u : ℤ) else (u : ℤ) - 65536

/-- The `Int16Array` view of the byte array (pairs of bytes, little-endian;
a trailing odd byte has no corresponding 16-bit sample). -/
def bytesToInt16 : List ℕ → List ℤ
  | [] => []
  | [_] => []
  | lo :: hi :: rest => toInt16 lo hi :: bytesToInt16 rest

/-- `decodeAudioData` from `audioHelpers.ts`: `frameCount =
dataInt16.length / numChannels`; channel `c` sample `i` is
`dataInt16[i * numChannels + c] / 32768.0`.  The division is exact in
IEEE doubles (numerator in `[-2^15, 2^15)`, power-of-two denominator), so
samples are modelled as rationals. -/
def decodeAudioData (data : List ℕ) (numChannels : ℕ) : List (List ℚ) :=
  let dataInt16 := bytesToInt16 data
  let frameCount := dataInt16.length / numChannels
  (List.range numChannels).map fun channel =>
    (List.range frameCount).map fun i =>
      ((dataInt16.getD (i * numChannels + channel) 0 : ℤ) : ℚ) / 32768

/-! ### Theorems -/

/-- Claim C2, counterexample: three samples all classifying as "C", delivered
40 ms apart from the fresh gate state, commit no event at all — the span
from the first sample (which only installs the candidate at t = 0) to the
third is 80 ms, which does not exceed the 100 ms stability threshold. -/
theorem c2_three_samples_commit_nothing :
    (runGate initGate
      [(0, Sample.note "C"), (40, Sample.note "C"), (80, Sample.note "C")]).2 = [] := by
  decide

/-- Claim C2 (amended): a sequence of four samples all classifying as "C"
delivered 40 ms apart (120 ms span, exceeding the 100 ms threshold) commits
exactly one "C" event, and a sequence alternating C, D, C, D with 20 ms
between samples never commits any event. -/
theorem c2_stability_gate (t0 : ℕ) :
    (runGate initGate
      [(t0, Sample.note "C"), (t0 + 40, Sample.note "C"),
       (t0 + 80, Sample.note "C"), (t0 + 120, Sample.note "C")]).2 = ["C"] ∧
    (runGate initGate
      [(t0, Sample.note "C"), (t0 + 20, Sample.note "D"),
       (t0 + 40, Sample.note "C"), (t0 + 60, Sample.note "D")]).2 = [] := by
  constructor <;>
    simp [runGate, handlePitch, initGate, STABILITY_THRESHOLD_MS,
      Nat.add_sub_cancel_left]

/-- `c2_stability_gate` at the concrete start time 0. -/
theorem c2_stability_gate_witness :
    (runGate initGate
      [(0, Sample.note "C"), (40, Sample.note "C"),
       (80, Sample.note "C"), (120, Sample.note "C")]).2 = ["C"] :=
  (c2_stability_gate 0).1

/-- On samples that are all silence, out-of-range, or the already-stable
note `x`, the gate emits nothing and keeps `currentStable = x`. -/
theorem runGate_same_note_no_commit (x : String) :
    ∀ (ts : List (ℕ × Sample)) (st : GateState), st.currentStable = some x →
      (∀ p ∈ ts, p.2 = Sample.silence ∨ p.2 = Sample.outOfRange ∨ p.2 = Sample.note x) →
      (runGate st ts).2 = [] ∧ (runGate st ts).1.currentStable = some x := by
  intro ts
  induction ts with
  | nil => intro st hst _; simp [runGate, hst]
  | cons p rest ih =>
    obtain ⟨t, s⟩ := p
    intro st hst hall
    have hrest : ∀ q ∈ rest, q.2 = Sample.silence ∨ q.2 = Sample.outOfRange ∨
        q.2 = Sample.note x := fun q hq => hall q (List.mem_cons_of_mem _ hq)
    have hstep : (handlePitch st t s).2 = none ∧
        (handlePitch st t s).1.currentStable = some x := by
      rcases hall (t, s) (List.mem_cons_self _ _) with h | h | h <;>
        simp only at h <;> subst h
      · exact ⟨rfl, hst⟩
      · exact ⟨rfl, hst⟩
      · simp only [handlePitch]
        split_ifs with h1 h2 h3
        · exact absurd hst h3
        · exact ⟨rfl, hst⟩
        · exact ⟨rfl, hst⟩
        · exact ⟨rfl, hst⟩
    obtain ⟨htail, hstable⟩ := ih (handlePitch st t s).1 hstep.2 hrest
    refine ⟨?_, ?_⟩
    · simp [runGate, hstep.1, htail]
    · simpa [runGate] using hstable

/-- Claim C6: a silence sample clears only the candidate and never the
last-committed note; `handlePitch` never un-sets the committed note (only
`stopGate`, the reset of `stopListening`, does); consequently, replaying the
already-committed note after silence gaps, with no different label in
between and no stop, never produces a second commit. -/
theorem c6_silence_and_recommit :
    (∀ (st : GateState) (now : ℕ),
      (handlePitch st now Sample.silence).1.currentStable = st.currentStable ∧
      (handlePitch st now Sample.silence).1.candidateNote = none) ∧
    (∀ (st : GateState) (now : ℕ) (smp : Sample),
      (handlePitch st now smp).1.currentStable = st.currentStable ∨
      ∃ lbl, smp = Sample.note lbl ∧
        (handlePitch st now smp).1.currentStable = some lbl) ∧
    (∀ st : GateState, (stopGate st).currentStable = none) ∧
    (∀ (st : GateState) (x : String) (ts : List (ℕ × Sample)),
      st.currentStable = some x →
      (∀ p ∈ ts, p.2 = Sample.silence ∨ p.2 = Sample.outOfRange ∨
        p.2 = Sample.note x) →
      (runGate st ts).2 = []) := by
  refine ⟨fun st now => ⟨rfl, rfl⟩, fun st now smp => ?_, fun st => rfl,
    fun st x ts hst hall => (runGate_same_note_no_commit x ts st hst hall).1⟩
  cases smp with
  | silence => exact Or.inl rfl
  | outOfRange => exact Or.inl rfl
  | note lbl =>
    simp only [handlePitch]
    split_ifs with h1 h2 h3
    · exact Or.inr ⟨lbl, rfl, rfl⟩
    · exact Or.inl rfl
    · exact Or.inl rfl
    · exact Or.inl rfl

/-- `c6_silence_and_recommit` at a concrete state with committed note "C"
and a concrete silence-then-replay trace: the second hold of "C" (160 ms,
above threshold) commits nothing. -/
theorem c6_witness :
    (runGate ⟨none, 0, some "C"⟩
      [(0, Sample.silence), (40, Sample.note "C"), (200, Sample.note "C")]).2 = [] :=
  c6_silence_and_recommit.2.2.2 ⟨none, 0, some "C"⟩ "C"
    [(0, Sample.silence), (40, Sample.note "C"), (200, Sample.note "C")]
    rfl (by decide)

/-- Claim C3: while listening, with a target set, the latch clear, and no
advance pending, a committed note whose letter equals the target's letter
marks the round matched, increments the score by exactly one, and schedules
exactly one advancement; any further committed note (same or different)
arriving before the scheduled advance fires leaves the state unchanged — in
particular it neither increments the score nor schedules a second advance. -/
theorem c3_match_latch (g : GameState) (t : TargetNote) (n : String)
    (hL : g.isListening = true) (hT : g.targetNote = some t)
    (hP : g.processingMatch = false) (hpend : g.pendingAdvances = 0)
    (hn : n = t.note) :
    (onCommit g n).isMatched = true ∧
    (onCommit g n).score = g.score + 1 ∧
    (onCommit g n).pendingAdvances = 1 ∧
    ∀ m, onCommit (onCommit g n) m = onCommit g n := by
  have hg : onCommit g n =
      { g with processingMatch := true, isMatched := true, score := g.score + 1,
               showReward := if g.perfectAttempt then true else g.showReward,
               pendingAdvances := g.pendingAdvances + 1 } := by
    simp [onCommit, hL, hT, hP, hn]
  refine ⟨by rw [hg], by rw [hg], by rw [hg, hpend], fun m => ?_⟩
  rw [hg]
  simp [onCommit]

/-- `c3_match_latch` at a concrete state: target "C", score 0, latch clear;
a committed "C" scores once, and a second committed "C" before the advance
fires changes nothing. -/
theorem c3_match_latch_witness :
    (onCommit ⟨true, some ⟨"C", 4⟩, 0, false, false, true, false, 0⟩ "C").isMatched = true ∧
    (onCommit ⟨true, some ⟨"C", 4⟩, 0, false, false, true, false, 0⟩ "C").score = 0 + 1 ∧
    (onCommit ⟨true, some ⟨"C", 4⟩, 0, false, false, true, false, 0⟩ "C").pendingAdvances = 1 ∧
    onCommit (onCommit ⟨true, some ⟨"C", 4⟩, 0, false, false, true, false, 0⟩ "C") "C" =
      onCommit ⟨true, some ⟨"C", 4⟩, 0, false, false, true, false, 0⟩ "C" := by
  have h := c3_match_latch ⟨true, some ⟨"C", 4⟩, 0, false, false, true, false, 0⟩
    ⟨"C", 4⟩ "C" rfl rfl rfl rfl rfl
  exact ⟨h.1, h.2.1, h.2.2.1, h.2.2.2 "C"⟩

/-- Claim C5: if from batch `k` on every token observation of a background
fill task differs from its captured token (a new session was started — and
tokens are never reused — before batch `k`'s first check), then every batch
whose state write executes lies strictly before the switch: reads `2b` and
`2b + 1` of a written batch `b` both precede read index `k`.  In particular
the stale task performs zero writes after the session switch. -/
theorem c5_stale_session_never_writes (captured : String)
    (obs : List (String × String)) (k : ℕ)
    (hstale : ∀ (j : ℕ) (h : j < obs.length),
      (k ≤ 2 * j → (obs.get ⟨j, h⟩).1 ≠ captured) ∧
      (k ≤ 2 * j + 1 → (obs.get ⟨j, h⟩).2 ≠ captured)) :
    ∀ b ∈ runBackground captured obs, 2 * b + 1 < k := by
  induction obs generalizing k with
  | nil => intro b hb; simp [runBackground] at hb
  | cons p rest ih =>
    obtain ⟨pre, post⟩ := p
    intro b hb
    by_cases h1 : pre = captured
    · by_cases h2 : post = captured
      · simp only [runBackground, h1, h2, ne_eq, not_true_eq_false, if_false,
          ite_false, if_neg] at hb
        have hk1 : ¬ k ≤ 0 := fun hk =>
          (hstale 0 (by simp)).1 (by omega) h1
        have hk2 : 2 ≤ k := by
          rcases Nat.lt_or_ge k 2 with h | h
          · exact absurd ((hstale 0 (by simp)).2 (by omega) h2) (by simp [h2])
          · exact h
        rcases List.mem_cons.mp hb with hb0 | hbs
        · omega
        · obtain ⟨b0, hb0, rfl⟩ := List.mem_map.mp hbs
          have hshift : ∀ (j : ℕ) (h : j < rest.length),
              (k - 2 ≤ 2 * j → (rest.get ⟨j, h⟩).1 ≠ captured) ∧
              (k - 2 ≤ 2 * j + 1 → (rest.get ⟨j, h⟩).2 ≠ captured) := by
            intro j hj
            have := hstale (j + 1) (by simpa using Nat.succ_lt_succ hj)
            constructor
            · intro hkj
              exact (this.1 (by omega))
            · intro hkj
              exact (this.2 (by omega))
          have := ih (k - 2) hshift b0 hb0
          omega
      · simp [runBackground, h1, h2] at hb
    · simp [runBackground, h1] at hb

/-- `c5_stale_session_never_writes` at a concrete run: captured token "a",
first batch observes ("a","a") and writes, the session switches to "b"
before the second batch, whose reads (indices 2 and 3, at or after the
switch index 2) observe "b": batch 1 is never written. -/
theorem c5_witness : (1 : ℕ) ∉ runBackground "a" [("a", "a"), ("b", "b")] := by
  intro hmem
  have h := c5_stale_session_never_writes "a" [("a", "a"), ("b", "b")] 2
    (by decide) 1 hmem
  omega

/-- The note accepted by the `generateRandomNote` do/while loop is a natural
note and is never the excluded note. -/
theorem generateRandomNoteLoop_spec :
    ∀ (draws : List (Fin 7)) (ex : Option String) (note : String)
      (rest : List (Fin 7)),
      generateRandomNoteLoop draws ex = some (note, rest) →
      note ∈ NATURAL_NOTES ∧ ∀ e, ex = some e → note ≠ e := by
  intro draws
  induction draws with
  | nil => intro ex note rest h; simp [generateRandomNoteLoop] at h
  | cons d ds ih =>
    intro ex note rest h
    simp only [generateRandomNoteLoop] at h
    by_cases hc : ex = some (NATURAL_NOTES.getD (d : ℕ) "") ∧ 1 < NATURAL_NOTES.length
    · rw [if_pos hc] at h
      exact ih ex note rest h
    · rw [if_neg hc] at h
      have hne : note = NATURAL_NOTES.getD (d : ℕ) "" := by
        simpa using congrArg (fun o => (Option.map Prod.fst o).getD "") h.symm
      constructor
      · rw [hne]
        fin_cases d <;> decide
      · intro e he hcontra
        apply hc
        refine ⟨?_, by decide⟩
        rw [he, ← hcontra, hne]

/-- The session note list built by `startStorySession`'s generation loop
consists of natural notes, consecutive entries always differ, and its head
differs from the seed exclusion. -/
theorem genSessionNotes_spec :
    ∀ (n : ℕ) (draws : List (Fin 7)) (prev : Option String),
      (∀ s ∈ genSessionNotes draws n prev, s ∈ NATURAL_NOTES) ∧
      List.Chain' (fun a b => a ≠ b) (genSessionNotes draws n prev) ∧
      (∀ p x, prev = some p → (genSessionNotes draws n prev).head? = some x →
        x ≠ p) := by
  intro n
  induction n with
  | zero => intro draws prev; simp [genSessionNotes]
  | succ n ih =>
    intro draws prev
    simp only [genSessionNotes]
    cases hloop : generateRandomNoteLoop draws prev with
    | none => simp
    | some pr =>
      obtain ⟨note, rest⟩ := pr
      have hspec := generateRandomNoteLoop_spec draws prev note rest hloop
      have ihr := ih rest (some note)
      refine ⟨?_, ?_, ?_⟩
      · intro s hs
        rcases List.mem_cons.mp hs with h | h
        · exact h ▸ hspec.1
        · exact ihr.1 s h
      · refine List.chain'_cons'.mpr ⟨?_, ihr.2.1⟩
        intro y hy
        exact (ihr.2.2 note y rfl hy).symm
      · intro p x hp hx
        have hxe : note = x := by simpa using hx
        exact hxe ▸ hspec.2 p hp

/-- Claim C9: every note accepted by the `generateRandomNote` loop is a
natural note different from the excluded one (flashcard "next" passes the
current target's letter as the exclusion), and the story-session generation
loop — which seeds each call with the previous target's letter — produces a
sequence of natural notes in which every target differs from its immediate
predecessor. -/
theorem c9_random_targets (draws : List (Fin 7)) :
    (∀ (ex : Option String) (note : String) (rest : List (Fin 7)),
      generateRandomNoteLoop draws ex = some (note, rest) →
      note ∈ NATURAL_NOTES ∧ ∀ e, ex = some e → note ≠ e) ∧
    (∀ n, (∀ s ∈ genSessionNotes draws n none, s ∈ NATURAL_NOTES) ∧
      List.Chain' (fun a b => a ≠ b) (genSessionNotes draws n none)) :=
  ⟨fun ex note rest h => generateRandomNoteLoop_spec draws ex note rest h,
   fun n => ⟨(genSessionNotes_spec n draws none).1,
     (genSessionNotes_spec n draws none).2.1⟩⟩

/-- `c9_random_targets` on concrete draws `[0, 1]` with exclusion "C": the
first draw "C" is rejected by the loop and the accepted note is the natural
note "D" ≠ "C". -/
theorem c9_random_targets_witness : ("D" : String) ∈ NATURAL_NOTES ∧ "D" ≠ "C" := by
  have h := (c9_random_targets [0, 1]).1 (some "C") "D" [] (by decide)
  exact ⟨h.1, h.2 "C" rfl⟩

/-- The `Play …!` fallback sentence is never the empty (falsy) string. -/
theorem playFallback_ne_empty (note : String) : playFallback note ≠ "" := by
  intro h
  have hlen := congrArg String.length h
  simp only [playFallback, String.length_append] at hlen
  have h5 : ("Play " : String).length = 5 := rfl
  have h1 : ("!" : String).length = 1 := rfl
  have h0 : ("" : String).length = 0 := rfl
  omega

/-- `generateStorySession` returns exactly one sentence per requested note,
whatever the key state and service outcome. -/
theorem generateStorySession_length (ns : List String) (hasKey : Bool)
    (resp : TextServiceResult) :
    (generateStorySession ns hasKey resp).length = ns.length := by
  cases hasKey with
  | false => simp [generateStorySession]
  | true =>
    cases resp with
    | failure => simp [generateStorySession]
    | nonArray => simp [generateStorySession]
    | array xs =>
      simp only [generateStorySession, Bool.true_eq_false, if_false]
      split_ifs with h
      · exact h
      · simp

/-- `buildQueue` returns one `StoryItem` per generated note. -/
theorem buildQueue_length (notes : List TargetNote) (texts : List String)
    (audios : List (Option String)) :
    (buildQueue notes texts audios).length = notes.length := by
  simp [buildQueue]

/-- Claim C7: for a story session over `SESSION_LENGTH = 50` notes, the text
list and the built queue both have exactly 50 entries whatever the text
service returned (fewer strings, a non-array, a thrown error, or no API
key); and whenever the service returned an array that is too short, every
slot at an index past its end carries the templated fallback sentence
`Play <note>!`. -/
theorem c7_story_queue_padding (notes : List TargetNote) (hasKey : Bool)
    (resp : TextServiceResult) (audios : List (Option String))
    (hN : notes.length = SESSION_LENGTH) :
    (generateStorySession (notes.map TargetNote.note) hasKey resp).length =
      SESSION_LENGTH ∧
    (buildQueue notes (generateStorySession (notes.map TargetNote.note) hasKey resp)
      audios).length = SESSION_LENGTH ∧
    ∀ xs, resp = TextServiceResult.array xs → hasKey = true →
      ∀ (i : ℕ) (t : TargetNote), xs.length ≤ i → notes[i]? = some t →
        ((buildQueue notes
            (generateStorySession (notes.map TargetNote.note) hasKey resp)
            audios)[i]?).map StoryItem.text = some (playFallback t.note) := by
  refine ⟨by rw [generateStorySession_length, List.length_map, hN],
    by rw [buildQueue_length, hN], ?_⟩
  intro xs hresp hkey i t hxi hit
  subst hresp
  subst hkey
  have hi : i < notes.length := by
    by_contra hcon
    rw [List.getElem?_eq_none (by omega)] at hit
    exact Option.noConfusion hit
  have hne : ¬ xs.length = (notes.map TargetNote.note).length := by
    rw [List.length_map]; omega
  have htexts : generateStorySession (notes.map TargetNote.note) true
      (TextServiceResult.array xs) =
      (notes.map TargetNote.note).mapIdx fun j note =>
        if xs.getD j "" = "" then playFallback note else xs.getD j "" := by
    simp only [generateStorySession, Bool.true_eq_false, if_false]
    rw [if_neg hne]
  have hxsD : xs.getD i "" = "" := by
    rw [List.getD_eq_getElem?_getD, List.getElem?_eq_none hxi]
    rfl
  have htextsi : (generateStorySession (notes.map TargetNote.note) true
      (TextServiceResult.array xs))[i]? = some (playFallback t.note) := by
    rw [htexts]
    rw [List.getElem?_mapIdx, List.getElem?_map, hit]
    simp only [Option.map_some']
    rw [hxsD]
    simp
  have htD : (generateStorySession (notes.map TargetNote.note) true
      (TextServiceResult.array xs)).getD i "" = playFallback t.note := by
    rw [List.getD_eq_getElem?_getD, htextsi]
    rfl
  rw [buildQueue, List.getElem?_mapIdx, hit]
  simp only [Option.map_some']
  rw [htD, if_neg (playFallback_ne_empty t.note)]

/-- `c7_story_queue_padding` at a concrete 50-note session whose text
service returned an empty array: the queue still has 50 items and slot 49
uses the `Play C!` fallback. -/
theorem c7_story_queue_padding_witness :
    (buildQueue (List.replicate 50 ⟨"C", 4⟩)
      (generateStorySession ((List.replicate 50 (⟨"C", 4⟩ : TargetNote)).map
        TargetNote.note) true (TextServiceResult.array [])) []).length = 50 ∧
    ((buildQueue (List.replicate 50 ⟨"C", 4⟩)
      (generateStorySession ((List.replicate 50 (⟨"C", 4⟩ : TargetNote)).map
        TargetNote.note) true (TextServiceResult.array [])) [])[49]?).map
      StoryItem.text = some (playFallback "C") := by
  have h := c7_story_queue_padding (List.replicate 50 ⟨"C", 4⟩) true
    (TextServiceResult.array []) [] (by decide)
  exact ⟨h.2.1, h.2.2 [] rfl rfl 49 ⟨"C", 4⟩ (by decide) (by decide)⟩

/-- `applyBatch` preserves the queue length. -/
theorem applyBatch_length (q : List StoryItem) (i : ℕ)
    (batch : List (Option String)) : (applyBatch q i batch).length = q.length := by
  simp [applyBatch]

/-- `applyBatch` leaves slots outside `[i, i + batch.length)` unchanged. -/
theorem applyBatch_getElem?_untouched (q : List StoryItem) (i : ℕ)
    (batch : List (Option String)) (j : ℕ)
    (hj : j < i ∨ i + batch.length ≤ j) :
    (applyBatch q i batch)[j]? = q[j]? := by
  simp only [applyBatch, List.getElem?_mapIdx]
  cases h : q[j]? with
  | none => rfl
  | some it =>
    simp only [Option.map_some']
    rw [if_neg (by omega)]

/-- `mkBatch` produces at most `batchSize` entries. -/
theorem mkBatch_length (audioFor : ℕ → Option String) (i batchSize n : ℕ) :
    (mkBatch audioFor i batchSize n).length = min (i + batchSize) n - i := by
  simp [mkBatch]

/-- Fuel-indexed invariant of the background fill loop: the queue length is
preserved, and any slot whose `audioBase64` is already a string keeps
exactly that string, provided every slot at or past the current write index
is still `null` (which is how `startStorySession` publishes the queue). -/
theorem fillLoop_invariant (audioFor : ℕ → Option String) (n batchSize : ℕ)
    (hbs : 0 < batchSize) :
    ∀ (fuel : ℕ) (q : List StoryItem) (i : ℕ), n - i ≤ fuel →
      (∀ (j : ℕ) (it : StoryItem), q[j]? = some it → i ≤ j →
        it.audioBase64 = none) →
      (fillLoop audioFor n batchSize hbs q i).length = q.length ∧
      ∀ (j : ℕ) (it : StoryItem) (a : String), q[j]? = some it →
        it.audioBase64 = some a →
        ((fillLoop audioFor n batchSize hbs q i)[j]?).map StoryItem.audioBase64 =
          some (some a) := by
  intro fuel
  induction fuel with
  | zero =>
    intro q i hfuel hK
    have hstop : ¬ i < n := by omega
    rw [fillLoop, dif_neg hstop]
    refine ⟨rfl, fun j it a hj hit => ?_⟩
    rw [hj]
    simp [hit]
  | succ fuel ih =>
    intro q i hfuel hK
    by_cases hlt : i < n
    · rw [fillLoop, dif_pos hlt]
      have hKnext : ∀ (j : ℕ) (it : StoryItem),
          (applyBatch q i (mkBatch audioFor i batchSize n))[j]? = some it →
          i + batchSize ≤ j → it.audioBase64 = none := by
        intro j it hj hij
        rw [applyBatch_getElem?_untouched q i _ j
          (Or.inr (by rw [mkBatch_length]; omega))] at hj
        exact hK j it hj (by omega)
      have hrec := ih (applyBatch q i (mkBatch audioFor i batchSize n))
        (i + batchSize) (by omega) hKnext
      refine ⟨by rw [hrec.1, applyBatch_length], ?_⟩
      intro j it a hj hit
      have hji : j < i := by
        by_contra hcon
        rw [hK j it hj (by omega)] at hit
        exact Option.noConfusion hit
      refine hrec.2 j it a ?_ hit
      rw [applyBatch_getElem?_untouched q i _ j (Or.inl hji)]
      exact hj
    · rw [fillLoop, dif_neg hlt]
      refine ⟨rfl, fun j it a hj hit => ?_⟩
      rw [hj]
      simp [hit]

/-- Claim C8: once the queue is published (all slots at or past the
background start index `i` still `null`, as `startStorySession` builds
them), the fill loop — the only writer to a live session's queue —
preserves the queue's length, and every slot whose `audioBase64` had
already become a string retains exactly that string: a non-`null` slot
never reverts to `null`. -/
theorem c8_queue_length_and_monotone (audioFor : ℕ → Option String)
    (n batchSize : ℕ) (hbs : 0 < batchSize) (q : List StoryItem) (i : ℕ)
    (hK : ∀ (j : ℕ) (it : StoryItem), q[j]? = some it → i ≤ j →
      it.audioBase64 = none) :
    (fillLoop audioFor n batchSize hbs q i).length = q.length ∧
    ∀ (j : ℕ) (it : StoryItem) (a : String), q[j]? = some it →
      it.audioBase64 = some a →
      ((fillLoop audioFor n batchSize hbs q i)[j]?).map StoryItem.audioBase64 =
        some (some a) :=
  fillLoop_invariant audioFor n batchSize hbs (n - i) q i le_rfl hK

/-- `c8_queue_length_and_monotone` on a concrete two-slot queue whose slot 0
already has audio `"x"` and whose slot 1 (the background region) is `null`:
after the fill the length is still 2 and slot 0 still holds `"x"`. -/
theorem c8_witness :
    (fillLoop (fun _ => some "y") 2 1 Nat.one_pos
      [⟨⟨"C", 4⟩, "t", some "x"⟩, ⟨⟨"D", 4⟩, "u", none⟩] 1).length = 2 ∧
    ((fillLoop (fun _ => some "y") 2 1 Nat.one_pos
      [⟨⟨"C", 4⟩, "t", some "x"⟩, ⟨⟨"D", 4⟩, "u", none⟩] 1)[0]?).map
      StoryItem.audioBase64 = some (some "x") := by
  have h := c8_queue_length_and_monotone (fun _ => some "y") 2 1 Nat.one_pos
    [⟨⟨"C", 4⟩, "t", some "x"⟩, ⟨⟨"D", 4⟩, "u", none⟩] 1 ?hK
  · exact ⟨h.1, h.2 0 ⟨⟨"C", 4⟩, "t", some "x"⟩ "x" rfl rfl⟩
  case hK =>
    intro j it hj hij
    match j, hj with
    | 0, hj => omega
    | 1, hj =>
      have : it = ⟨⟨"D", 4⟩, "u", none⟩ := by
        simpa using hj.symm
      rw [this]
    | j + 2, hj => exact Option.noConfusion hj

/-- Every 16-bit sample decoded from valid bytes lies in `[-32768, 32768)`. -/
theorem bytesToInt16_bound :
    ∀ (data : List ℕ), (∀ b ∈ data, b < 256) →
      ∀ v ∈ bytesToInt16 data, -32768 ≤ v ∧ v < 32768 := by
  intro data
  induction data using bytesToInt16.induct with
  | case1 =>
    intro _ v hv
    simp [bytesToInt16] at hv
  | case2 x =>
    intro _ v hv
    simp [bytesToInt16] at hv
  | case3 lo hi rest ih =>
    intro hb v hv
    rcases List.mem_cons.mp hv with h | h
    · subst h
      have hlo : lo < 256 := hb lo (by simp)
      have hhi : hi < 256 := hb hi (by simp)
      simp only [toInt16]
      split_ifs with hcase
      · constructor <;> omega
      · constructor <;> omega
    · exact ih (fun b hb2 => hb b (by simp [hb2])) v h

/-- Claim C10: for valid bytes, `numChannels ≥ 1`, and a sample count
divisible by `numChannels`, `decodeAudioData` yields `numChannels` channels
of `frameCount = samples / numChannels` entries each, where channel `ch`
frame `i` equals the signed 16-bit sample at position
`i * numChannels + ch` divided by 32768, and therefore lies in `[-1, 1)`. -/
theorem c10_decode_pcm (data : List ℕ) (nc : ℕ) (hnc : 1 ≤ nc)
    (hbytes : ∀ b ∈ data, b < 256)
    (hdiv : nc ∣ (bytesToInt16 data).length) :
    (decodeAudioData data nc).length = nc ∧
    ∀ (ch : ℕ), ch < nc →
      ∃ chan, (decodeAudioData data nc)[ch]? = some chan ∧
        chan.length = (bytesToInt16 data).length / nc ∧
        ∀ (i : ℕ), i < (bytesToInt16 data).length / nc →
          ∃ v, chan[i]? = some v ∧
            v = (((bytesToInt16 data).getD (i * nc + ch) 0 : ℤ) : ℚ) / 32768 ∧
            -1 ≤ v ∧ v < 1 := by
  constructor
  · simp [decodeAudioData]
  · intro ch hch
    refine ⟨(List.range ((bytesToInt16 data).length / nc)).map fun i =>
      (((bytesToInt16 data).getD (i * nc + ch) 0 : ℤ) : ℚ) / 32768, ?_, by simp, ?_⟩
    · simp only [decodeAudioData, List.getElem?_map, List.getElem?_range hch,
        Option.map_some']
    · intro i hi
      refine ⟨(((bytesToInt16 data).getD (i * nc + ch) 0 : ℤ) : ℚ) / 32768,
        by rw [List.getElem?_map, List.getElem?_range hi]; rfl, rfl, ?_⟩
      have hidx : i * nc + ch < (bytesToInt16 data).length := by
        have hmul : (bytesToInt16 data).length / nc * nc =
            (bytesToInt16 data).length := Nat.div_mul_cancel hdiv
        have h1 : i * nc + ch < (i + 1) * nc := by
          rw [Nat.add_mul, Nat.one_mul]
          omega
        have h2 : (i + 1) * nc ≤ (bytesToInt16 data).length / nc * nc :=
          Nat.mul_le_mul_right nc (by omega)
        omega
      have hmem : (bytesToInt16 data).getD (i * nc + ch) 0 ∈ bytesToInt16 data := by
        rw [List.getD_eq_getElem?_getD, List.getElem?_eq_getElem hidx]
        exact List.getElem_mem hidx
      have hbound := bytesToInt16_bound data hbytes _ hmem
      have hc1 : ((-32768 : ℤ) : ℚ) ≤ (((bytesToInt16 data).getD (i * nc + ch) 0 : ℤ) : ℚ) :=
        Int.cast_le.mpr hbound.1
      have hc2 : (((bytesToInt16 data).getD (i * nc + ch) 0 : ℤ) : ℚ) <
          ((32768 : ℤ) : ℚ) := Int.cast_lt.mpr hbound.2
      constructor
      · rw [le_div_iff₀ (by norm_num : (0 : ℚ) < 32768)]
        push_cast at hc1 ⊢
        linarith
      · rw [div_lt_one (by norm_num : (0 : ℚ) < 32768)]
        push_cast at hc2 ⊢
        linarith

/-- `c10_decode_pcm` on the concrete byte stream
`[0, 0, 255, 127, 0, 128]` (samples `0`, `32767`, `-32768`) with one
channel. -/
theorem c10_decode_pcm_witness :
    (decodeAudioData [0, 0, 255, 127, 0, 128] 1).length = 1 :=
  (c10_decode_pcm [0, 0, 255, 127, 0, 128] 1 (by decide) (by decide)
    ⟨3, rfl⟩).1

/-- A nonnegative MIDI number whose pitch class avoids the five black keys
names a natural note. -/
theorem noteName_natural_of_class (m : ℤ) (hm : 0 ≤ m)
    (hc : m % 12 = 0 ∨ m % 12 = 2 ∨ m % 12 = 4 ∨ m % 12 = 5 ∨ m % 12 = 7 ∨
      m % 12 = 9 ∨ m % 12 = 11) : noteName m ∈ NATURAL_NOTES := by
  unfold noteName
  rw [Int.tmod_eq_emod hm (by norm_num)]
  rcases hc with h | h | h | h | h | h | h <;> rw [h] <;> decide

/-- After the snap step, a rounded MIDI number `≥ 1` always yields a natural
note name: a non-sharp pitch class is kept, and a sharp pitch class moves
one semitone to a neighbouring natural class. -/
theorem snapMidi_natural (x : ℝ) (hx : 1 ≤ jsRound x) :
    noteName (snapMidi x) ∈ NATURAL_NOTES := by
  have hr0 : (0 : ℤ) ≤ jsRound x := by omega
  have htm : Int.tmod (jsRound x) 12 = jsRound x % 12 :=
    Int.tmod_eq_emod hr0 (by norm_num)
  unfold snapMidi
  split_ifs with h1 h2
  · rw [htm] at h1
    simp only [sharpIndices, List.mem_cons, List.mem_singleton,
      List.not_mem_nil, or_false] at h1
    exact noteName_natural_of_class _ (by omega) (by omega)
  · rw [htm] at h1
    simp only [sharpIndices, List.mem_cons, List.mem_singleton,
      List.not_mem_nil, or_false] at h1
    exact noteName_natural_of_class _ (by omega) (by omega)
  · rw [htm] at h1
    simp only [sharpIndices, List.mem_cons, List.mem_singleton,
      List.not_mem_nil, or_false] at h1
    exact noteName_natural_of_class _ hr0 (by omega)

/-- For frequencies at or above 27.5 Hz the raw MIDI number is at least 21
(the MIDI number of A0). -/
theorem rawMidiOf_ge_21 (f : ℝ) (h27 : 27.5 ≤ f) : (21 : ℝ) ≤ rawMidiOf f := by
  unfold rawMidiOf
  have hdiv : (27.5 : ℝ) / 440 ≤ f / 440 := by
    apply div_le_div_of_nonneg_right h27 <;> norm_num
  have hmono : Real.logb 2 (27.5 / 440) ≤ Real.logb 2 (f / 440) :=
    Real.logb_le_logb_of_le (by norm_num) (by norm_num) hdiv
  have hval : Real.logb 2 ((27.5 : ℝ) / 440) = -4 := by
    have h116 : (27.5 : ℝ) / 440 = ((2 : ℝ) ^ ((4 : ℕ) : ℝ))⁻¹ := by
      rw [Real.rpow_natCast]
      norm_num
    have hneg : ((2 : ℝ) ^ ((4 : ℕ) : ℝ))⁻¹ = (2 : ℝ) ^ (-((4 : ℕ) : ℝ)) :=
      (Real.rpow_neg (by norm_num) _).symm
    rw [h116, hneg, Real.logb_rpow (by norm_num) (by norm_num)]
    norm_num
  rw [hval] at hmono
  linarith

/-- The rounded MIDI number of an in-range frequency is at least 21. -/
theorem jsRound_rawMidiOf_ge (f : ℝ) (h27 : 27.5 ≤ f) :
    (21 : ℤ) ≤ jsRound (rawMidiOf f) := by
  have := rawMidiOf_ge_21 f h27
  unfold jsRound
  exact Int.le_floor.mpr (by push_cast; linarith)

/-- Claim C1: an in-range frequency always classifies to some `NoteData`
whose letter is one of the seven naturals (never a sharp), and a zero,
too-low, or too-high frequency classifies to `null`. -/
theorem c1_classifier_range (f : ℝ) :
    (27.5 ≤ f → f ≤ 4186 →
      ∃ nd, getNoteFromFrequency f = some nd ∧ nd.note ∈ NATURAL_NOTES) ∧
    (f = 0 ∨ f < 27.5 ∨ 4186 < f → getNoteFromFrequency f = none) := by
  constructor
  · intro h27 h4186
    have hguard : ¬ (f = 0 ∨ f < 27.5 ∨ 4186 < f) := by
      push_neg
      refine ⟨by linarith, by linarith, by linarith⟩
    refine ⟨{ note := noteName (snapMidi (rawMidiOf f))
              octave := Int.fdiv (snapMidi (rawMidiOf f)) 12 - 1
              frequency := f, cents := 0 }, ?_, ?_⟩
    · unfold getNoteFromFrequency
      rw [if_neg hguard]
    · exact snapMidi_natural (rawMidiOf f)
        (by have := jsRound_rawMidiOf_ge f h27; omega)
  · intro h
    unfold getNoteFromFrequency
    rw [if_pos h]

/-- `c1_classifier_range` at the concrete frequencies 440 Hz (in range,
classifies to a natural note) and 5000 Hz (above C8, classifies to
`null`). -/
theorem c1_classifier_range_witness :
    getNoteFromFrequency 440 ≠ none ∧ getNoteFromFrequency 5000 = none := by
  constructor
  · obtain ⟨nd, hnd, _⟩ := (c1_classifier_range 440).1 (by norm_num) (by norm_num)
    rw [hnd]
    exact Option.noConfusion
  · exact (c1_classifier_range 5000).2 (by norm_num)

/-- On a black-key pitch class, the snap step picks the natural neighbour
the continuous pitch is closer to: one semitone down exactly when the raw
pitch lies strictly below the rounded semitone, one semitone up otherwise
(ties round up, matching the strict `distBelow < distAbove` test). -/
theorem snapMidi_closer (x : ℝ)
    (hs : Int.tmod (jsRound x) 12 ∈ sharpIndices) :
    snapMidi x =
      if x < (jsRound x : ℝ) then jsRound x - 1 else jsRound x + 1 := by
  have hfl : ((jsRound x : ℝ)) ≤ x + 1 / 2 := Int.floor_le (x + 1 / 2)
  have hfu : x + 1 / 2 < (jsRound x : ℝ) + 1 := Int.lt_floor_add_one (x + 1 / 2)
  have e1 : |x - ((jsRound x : ℝ) - 1)| = x - (jsRound x : ℝ) + 1 := by
    rw [abs_of_nonneg (by linarith)]
    ring
  have e2 : |x - ((jsRound x : ℝ) + 1)| = (jsRound x : ℝ) + 1 - x := by
    rw [abs_sub_comm, abs_of_nonneg (by linarith)]
  have hiff : (|x - ((jsRound x : ℝ) - 1)| < |x - ((jsRound x : ℝ) + 1)|) ↔
      x < (jsRound x : ℝ) := by
    rw [e1, e2]
    constructor <;> intro h <;> linarith
  unfold snapMidi
  rw [if_pos hs]
  by_cases hx : x < (jsRound x : ℝ)
  · rw [if_pos (hiff.mpr hx), if_pos hx]
  · rw [if_neg (fun hc => hx (hiff.mp hc)), if_neg hx]

/-- Claim C4: for an in-range frequency whose rounded MIDI semitone has a
black-key pitch class, the classifier returns the snapped natural note (one
semitone below when the continuous pitch is strictly below the rounded
semitone, one above otherwise — i.e. whichever natural neighbour is closer,
ties snapping up), and the resulting letter is a natural, in particular
never a sharp label such as "C#". -/
theorem c4_black_key_snap (f : ℝ) (h27 : 27.5 ≤ f) (h4186 : f ≤ 4186)
    (hs : Int.tmod (jsRound (rawMidiOf f)) 12 ∈ sharpIndices) :
    getNoteFromFrequency f = some
      { note := noteName (snapMidi (rawMidiOf f))
        octave := Int.fdiv (snapMidi (rawMidiOf f)) 12 - 1
        frequency := f, cents := 0 } ∧
    snapMidi (rawMidiOf f) =
      (if rawMidiOf f < (jsRound (rawMidiOf f) : ℝ) then jsRound (rawMidiOf f) - 1
       else jsRound (rawMidiOf f) + 1) ∧
    noteName (snapMidi (rawMidiOf f)) ∈ NATURAL_NOTES ∧
    noteName (snapMidi (rawMidiOf f)) ≠ "C#" := by
  have hnat : noteName (snapMidi (rawMidiOf f)) ∈ NATURAL_NOTES :=
    snapMidi_natural (rawMidiOf f)
      (by have := jsRound_rawMidiOf_ge f h27; omega)
  refine ⟨?_, snapMidi_closer (rawMidiOf f) hs, hnat, ?_⟩
  · unfold getNoteFromFrequency
    rw [if_neg (by push_neg; refine ⟨by linarith, by linarith, by linarith⟩)]
  · intro heq
    rw [heq] at hnat
    exact absurd hnat (by decide)

/-- The exact C#4 frequency `440 * 2^(-8/12)` has raw MIDI number exactly
61. -/
theorem rawMidiOf_csharp4 :
    rawMidiOf (440 * (2 : ℝ) ^ ((-8 : ℝ) / 12)) = 61 := by
  unfold rawMidiOf
  rw [mul_div_cancel_left₀ _ (by norm_num : (440 : ℝ) ≠ 0)]
  rw [Real.logb_rpow (by norm_num) (by norm_num)]
  norm_num

/-- `Math.round(61) = 61`. -/
theorem jsRound_61 : jsRound (61 : ℝ) = 61 := by
  unfold jsRound
  rw [Int.floor_eq_iff]
  constructor <;> norm_num

/-- `c4_black_key_snap` at the exact C#4 frequency: the raw pitch is 61.0,
exactly midway between C4 (60) and D4 (62); the strict closeness test fails
downward, so the classifier returns D4 — never C#4. -/
theorem c4_black_key_snap_witness :
    getNoteFromFrequency (440 * (2 : ℝ) ^ ((-8 : ℝ) / 12)) =
      some { note := "D", octave := 4,
             frequency := 440 * (2 : ℝ) ^ ((-8 : ℝ) / 12), cents := 0 } := by
  have hpow : (1 : ℝ) / 2 ≤ (2 : ℝ) ^ ((-8 : ℝ) / 12) := by
    have h1 : (2 : ℝ) ^ ((-1 : ℝ)) ≤ (2 : ℝ) ^ ((-8 : ℝ) / 12) :=
      (Real.rpow_le_rpow_left_iff (by norm_num)).mpr (by norm_num)
    rw [Real.rpow_neg_one] at h1
    linarith
  have hpow1 : (2 : ℝ) ^ ((-8 : ℝ) / 12) ≤ 1 := by
    have h1 : (2 : ℝ) ^ ((-8 : ℝ) / 12) ≤ (2 : ℝ) ^ ((0 : ℝ)) :=
      (Real.rpow_le_rpow_left_iff (by norm_num)).mpr (by norm_num)
    rwa [Real.rpow_zero] at h1
  have h27 : (27.5 : ℝ) ≤ 440 * (2 : ℝ) ^ ((-8 : ℝ) / 12) := by nlinarith
  have h4186 : 440 * (2 : ℝ) ^ ((-8 : ℝ) / 12) ≤ 4186 := by nlinarith
  have hs : Int.tmod (jsRound (rawMidiOf (440 * (2 : ℝ) ^ ((-8 : ℝ) / 12)))) 12 ∈
      sharpIndices := by
    rw [rawMidiOf_csharp4, jsRound_61]
    decide
  have h := c4_black_key_snap (440 * (2 : ℝ) ^ ((-8 : ℝ) / 12)) h27 h4186 hs
  have hsnap := h.2.1
  rw [rawMidiOf_csharp4, jsRound_61] at hsnap
  rw [if_neg (by norm_num : ¬ ((61 : ℝ) < ((61 : ℤ) : ℝ)))] at hsnap
  have hname : noteName (61 + 1) = "D" := by decide
  have hoct : Int.fdiv (61 + 1) 12 - 1 = 4 := by decide
  rw [h.1, rawMidiOf_csharp4, hsnap, hname, hoct]

end PianoTrainer
